/-
Verification of the SmartCourse evaluation script (eval_relevance.py).

This file gives a shallow embedding of the evaluation logic:
  * the grade-rank helper `grade_low`,
  * the scoring block of the evaluation loop (good_plan / good_personal /
    plan_score / personal_score / lift / recall / inv_taken / inv_offplan),
  * the course-mention extractor `extract_courses` (regex exact pass with
    word boundaries, difflib.SequenceMatcher fuzzy fallback),
  * the bootstrap confidence-interval helper `ci` built on
    statistics.mean / statistics.quantiles (exclusive method),
  * the trial loop, with the generation call modelled as a fallible
    external function (requests.post may time out or fail).

Python floats are modelled as rationals; Python ints as Int/Nat; Python
sets of strings as `Finset String`; exceptions as `Except`.
-/
import Mathlib

namespace EvalRelevance

/-! ### Configuration constants (eval_relevance.py lines 21-22) -/

def BOOT_ITER : ℕ := 1000

def LOW_GRADE_THRESHOLD : String := "B-"

/-! ### Grade ranking (lines 56-63)

`grade_rank = {g:i for i, g in enumerate(["A","A-","B+","B","B-","C+","C","D","F"])}`.
`grade_rank.get(g, 99)` is modelled by `(gradeRank g).getD 99`; the direct
subscript `grade_rank[LOW_GRADE_THRESHOLD]` would raise a KeyError on a
missing key, but "B-" is on the scale, so `getD 99` yields the same value. -/

def gradeScale : List String := ["A", "A-", "B+", "B", "B-", "C+", "C", "D", "F"]

def gradeRank (g : String) : Option ℕ :=
  (List.range gradeScale.length).find? (fun i => gradeScale.getD i "" = g)

/-- `grade_low` from the source: the student's grade map is passed explicitly
(`course_grades.get(course)` returns `None` both for a missing key and a
recorded `None` value, which `String → Option String` captures). -/
def grade_low (grades : String → Option String) (course : String) : Bool :=
  match grades course with
  | none => false
  | some g =>
      decide ((gradeRank g).getD 99 ≥ (gradeRank LOW_GRADE_THRESHOLD).getD 99)

/-! ### Rounding (Python `round(x, 3)`)

Python rounds half to even.  `round(x, 3)` is modelled exactly on rationals:
round `1000 * x` half-to-even to an integer and divide by 1000. -/

def roundHalfEven (x : ℚ) : ℤ :=
  if Int.fract x < 1 / 2 then ⌊x⌋
  else if 1 / 2 < Int.fract x then ⌊x⌋ + 1
  else if Even ⌊x⌋ then ⌊x⌋ else ⌊x⌋ + 1

def round3 (x : ℚ) : ℚ := (roundHalfEven (1000 * x) : ℚ) / 1000

theorem roundHalfEven_le (x : ℚ) : (roundHalfEven x : ℚ) ≤ x + 1 := by
  have h0 := Int.fract_nonneg x
  have h1 := Int.fract_lt_one x
  have hf := Int.self_sub_floor x
  unfold roundHalfEven
  split_ifs <;> push_cast <;> linarith

theorem le_roundHalfEven (x : ℚ) : x - 1 ≤ (roundHalfEven x : ℚ) := by
  have h0 := Int.fract_nonneg x
  have h1 := Int.fract_lt_one x
  have hf := Int.self_sub_floor x
  unfold roundHalfEven
  split_ifs <;> push_cast <;> linarith

theorem roundHalfEven_abs_sub_le (x : ℚ) :
    |(roundHalfEven x : ℚ) - x| ≤ 1 / 2 := by
  have h0 := Int.fract_nonneg x
  have h1 := Int.fract_lt_one x
  have hf := Int.self_sub_floor x
  rw [abs_le]
  unfold roundHalfEven
  split_ifs <;> constructor <;> push_cast <;> linarith

theorem roundHalfEven_mono {x y : ℚ} (h : x ≤ y) :
    roundHalfEven x ≤ roundHalfEven y := by
  have hx0 := Int.fract_nonneg x
  have hx1 := Int.fract_lt_one x
  have hy0 := Int.fract_nonneg y
  have hy1 := Int.fract_lt_one y
  have hfx := Int.self_sub_floor x
  have hfy := Int.self_sub_floor y
  have hfl : ⌊x⌋ ≤ ⌊y⌋ := Int.floor_le_floor h
  rcases lt_or_eq_of_le hfl with hlt | heq
  · -- different floors: roundHalfEven x ≤ ⌊x⌋ + 1 ≤ ⌊y⌋ ≤ roundHalfEven y
    have hxle : roundHalfEven x ≤ ⌊x⌋ + 1 := by
      unfold roundHalfEven; split_ifs <;> omega
    have hyge : ⌊y⌋ ≤ roundHalfEven y := by
      unfold roundHalfEven; split_ifs <;> omega
    omega
  · -- same floor: compare fractional parts
    have hfrac : Int.fract x ≤ Int.fract y := by
      have : (⌊x⌋ : ℚ) = (⌊y⌋ : ℚ) := by exact_mod_cast congrArg Int.cast heq
      linarith
    unfold roundHalfEven
    simp only [Int.even_iff]
    split_ifs <;> first | omega | (exfalso; linarith)

theorem round3_mono {x y : ℚ} (h : x ≤ y) : round3 x ≤ round3 y := by
  unfold round3
  have : roundHalfEven (1000 * x) ≤ roundHalfEven (1000 * y) :=
    roundHalfEven_mono (by linarith)
  have hc : ((roundHalfEven (1000 * x) : ℚ)) ≤ (roundHalfEven (1000 * y) : ℚ) := by
    exact_mod_cast this
  linarith

theorem round3_nonneg {x : ℚ} (h : 0 ≤ x) : 0 ≤ round3 x := by
  have h0 : round3 0 = 0 := by
    unfold round3 roundHalfEven
    norm_num
  have := round3_mono h
  rw [h0] at this
  exact this

theorem round3_abs_sub_le (x : ℚ) : |round3 x - x| ≤ 1 / 2000 := by
  have h := roundHalfEven_abs_sub_le (1000 * x)
  unfold round3
  have hexpand : (roundHalfEven (1000 * x) : ℚ) / 1000 - x
      = ((roundHalfEven (1000 * x) : ℚ) - 1000 * x) / 1000 := by ring
  rw [hexpand, abs_div]
  rw [show |(1000 : ℚ)| = 1000 by norm_num]
  rw [div_le_div_iff₀ (by norm_num) (by norm_num)]
  linarith

/-! ### The scoring block of the evaluation loop (lines 116-125) -/

def good_plan (recs plan taken : Finset String) : Finset String :=
  recs.filter (fun c => c ∈ plan ∧ c ∉ taken)

def good_personal (recs plan taken : Finset String)
    (grades : String → Option String) : Finset String :=
  recs.filter (fun c => c ∈ plan ∧ (c ∉ taken ∨ grade_low grades c))

structure ScoreRow where
  nRec : ℕ
  plan_score : ℚ
  personal_score : ℚ
  lift : ℚ
  recall' : ℚ
  inv_taken : ℕ
  inv_offplan : ℤ
  deriving Repr, DecidableEq

def scoreRow (recs plan taken : Finset String)
    (grades : String → Option String) : ScoreRow :=
  let gp := good_plan recs plan taken
  let gper := good_personal recs plan taken grades
  let plan_score : ℚ := if recs = ∅ then 0 else round3 ((gp.card : ℚ) / recs.card)
  let personal_score : ℚ :=
    if recs = ∅ then 0 else round3 ((gper.card : ℚ) / recs.card)
  let lift : ℚ := round3 (personal_score - plan_score)
  let todo := plan \ taken
  let recall' : ℚ := if todo = ∅ then 0 else round3 ((gp.card : ℚ) / todo.card)
  let inv_taken := (recs.filter (fun c => c ∈ taken)).card
  let inv_offplan : ℤ := (recs.card : ℤ) - gp.card - inv_taken
  ⟨recs.card, plan_score, personal_score, lift, recall', inv_taken, inv_offplan⟩

/-! ### Course-mention extraction (lines 76-87)

The exact pass runs `re.search(rf"\b{re.escape(code)}\b", text, flags=re.I)`
for every entry of the code→course dict.  Since the code is escaped, the
pattern is a literal framed by word boundaries, so the search is: some
position at which the text matches the code case-insensitively, with a
word boundary on each side.  A word character for the ASCII data handled
here is a letter, digit or underscore. -/

def wordChar (c : Char) : Bool := c.isAlphanum || c = '_'

def wordAt (t : List Char) (p : ℕ) : Bool :=
  decide (p < t.length) && wordChar (t.getD p ' ')

/-- regex `\b`: exactly one side of position `p` is a word character. -/
def boundaryAt (t : List Char) (p : ℕ) : Bool :=
  ((decide (0 < p)) && wordAt t (p - 1)) != wordAt t p

def lowerChars (l : List Char) : List Char := l.map Char.toLower

def sliceEqCI (t : List Char) (p : ℕ) (c : List Char) : Bool :=
  lowerChars ((t.drop p).take c.length) == lowerChars c

def codeMatches (code text : String) : Bool :=
  (List.range (text.toList.length + 1)).any (fun p =>
    decide (p + code.toList.length ≤ text.toList.length) &&
      sliceEqCI text.toList p code.toList &&
      boundaryAt text.toList p &&
      boundaryAt text.toList (p + code.toList.length))

/-- Specification-side predicate: `code` occurs in `text` as a whole-word,
case-insensitive substring. -/
def occursWholeWord (code text : String) : Prop :=
  ∃ p, p + code.toList.length ≤ text.toList.length ∧
    sliceEqCI text.toList p code.toList = true ∧
    boundaryAt text.toList p = true ∧
    boundaryAt text.toList (p + code.toList.length) = true

/-- `c.split(":")[0].strip()`: the catalog code of a canonical course line. -/
def codeOf (c : String) : String := (c.takeWhile (· ≠ ':')).trim

/-- Python dict assignment `d[k] = v`: replace in place, or append. -/
def dictInsert (d : List (String × String)) (k v : String) :
    List (String × String) :=
  if d.any (fun p => p.1 == k) then
    d.map (fun p => if p.1 = k then (k, v) else p)
  else d ++ [(k, v)]

/-- `all_codes = {c.split(":")[0].strip(): c for c in all_courses}` (line 50). -/
def allCodes (catalog : List String) : List (String × String) :=
  catalog.foldl (fun d c => dictInsert d (codeOf c) c) []

/-- Pass 1 of `extract_courses`: all dict values whose key matches. -/
def exactPass (catalog : List String) (text : String) : Finset String :=
  ((allCodes catalog).filterMap (fun p =>
    if codeMatches p.1 text then some p.2 else none)).toFinset

/-! ### difflib.SequenceMatcher, as used by the fuzzy pass

`SequenceMatcher(None, a, b).ratio()`.  With `isjunk=None` the junk set
`bjunk` is empty, so the two junk-extension loops of `find_longest_match`
never fire and the non-junk guards are vacuous; `autojunk` purges
"popular" elements (more than `len(b)/100 + 1` occurrences, when
`len(b) >= 200`) from the index `b2j`. -/

def b2j (b : List Char) (c : Char) : List ℕ :=
  let idxs := (List.range b.length).filter (fun j => b.getD j ' ' == c)
  if 200 ≤ b.length ∧ b.length / 100 + 1 < idxs.length then [] else idxs

/-- One step of the inner loop of `find_longest_match`: `j2len` is the
length map of the previous row, the state carries `(besti, bestj, bestsize)`
and the new row `newj2len` (a total map defaulting to 0, mirroring
`dict.get(key, 0)`). -/
def flmInner (j2len : ℕ → ℕ) (i : ℕ)
    (st : (ℕ × ℕ × ℕ) × (ℕ → ℕ)) (j : ℕ) : (ℕ × ℕ × ℕ) × (ℕ → ℕ) :=
  let k := (if j = 0 then 0 else j2len (j - 1)) + 1
  let nj : ℕ → ℕ := fun x => if x = j then k else st.2 x
  if st.1.2.2 < k then ((i + 1 - k, j + 1 - k, k), nj) else (st.1, nj)

/-- The dynamic-programming double loop of `find_longest_match`.  The
`continue`/`break` bracketing of the ascending index list `b2j[a[i]]`
keeps exactly the indices in `[blo, bhi)`. -/
def flmLoop (a b : List Char) (alo ahi blo bhi : ℕ) : ℕ × ℕ × ℕ :=
  let step : ((ℕ × ℕ × ℕ) × (ℕ → ℕ)) → ℕ → ((ℕ × ℕ × ℕ) × (ℕ → ℕ)) :=
    fun st i =>
      let js := (b2j b (a.getD i ' ')).filter
        (fun j => decide (blo ≤ j) && decide (j < bhi))
      js.foldl (flmInner st.2 i) (st.1, fun _ => 0)
  ((List.range' alo (ahi - alo)).foldl step ((alo, blo, 0), fun _ => 0)).1

/-- First extension loop: grow the best match leftwards over equal
characters. -/
def extendLeft (a b : List Char) (alo blo : ℕ) (besti bestj bestsize : ℕ) :
    ℕ × ℕ × ℕ :=
  if h : alo < besti ∧ blo < bestj ∧
      a.getD (besti - 1) ' ' = b.getD (bestj - 1) ' ' then
    extendLeft a b alo blo (besti - 1) (bestj - 1) (bestsize + 1)
  else (besti, bestj, bestsize)
termination_by besti
decreasing_by omega

/-- Second extension loop: grow the best match rightwards over equal
characters. -/
def extendRight (a b : List Char) (ahi bhi : ℕ) (besti bestj bestsize : ℕ) :
    ℕ × ℕ × ℕ :=
  if h : besti + bestsize < ahi ∧ bestj + bestsize < bhi ∧
      a.getD (besti + bestsize) ' ' = b.getD (bestj + bestsize) ' ' then
    extendRight a b ahi bhi besti bestj (bestsize + 1)
  else (besti, bestj, bestsize)
termination_by ahi - (besti + bestsize)
decreasing_by omega

def findLongestMatch (a b : List Char) (alo ahi blo bhi : ℕ) : ℕ × ℕ × ℕ :=
  let st := flmLoop a b alo ahi blo bhi
  let st2 := extendLeft a b alo blo st.1 st.2.1 st.2.2
  extendRight a b ahi bhi st2.1 st2.2.1 st2.2.2

/-- Total size of the matching blocks of `get_matching_blocks`: recursively
split around the longest match.  The queue order of the Python loop does
not affect the sum.  The fuel bounds the recursion depth; every level
shrinks the interval pair, so `a.length + b.length + 1` suffices. -/
def matchesSum (a b : List Char) : ℕ → ℕ → ℕ → ℕ → ℕ → ℕ
  | 0, _, _, _, _ => 0
  | fuel + 1, alo, ahi, blo, bhi =>
    let r := findLongestMatch a b alo ahi blo bhi
    let i := r.1
    let j := r.2.1
    let k := r.2.2
    if k = 0 then 0
    else
      k + (if alo < i ∧ blo < j then matchesSum a b fuel alo i blo j else 0) +
        (if i + k < ahi ∧ j + k < bhi then
          matchesSum a b fuel (i + k) ahi (j + k) bhi else 0)

/-- `ratio() = 2.0 * matches / (len(a) + len(b))`, and 1.0 when both are
empty (`_calculate_ratio`). -/
def ratio (a b : List Char) : ℚ :=
  if a.length + b.length = 0 then 1
  else 2 * (matchesSum a b (a.length + b.length + 1) 0 a.length 0 b.length : ℚ)
    / (a.length + b.length)

/-- Pass 2 of `extract_courses`: catalog lines whose lowercased canonical
string scores a ratio above 0.8 against the lowercased whole text. -/
def fuzzyPass (catalog : List String) (text : String) : Finset String :=
  (catalog.filter (fun full =>
    decide ((4 : ℚ) / 5 <
      ratio (lowerChars text.toList) (lowerChars full.toList)))).toFinset

/-- `extract_courses` (lines 76-87): exact pass first; the fuzzy pass runs
only when the exact pass found nothing. -/
def extract_courses (catalog : List String) (text : String) : Finset String :=
  let found := exactPass catalog text
  if found = ∅ then fuzzyPass catalog text else found

/-! ### Bootstrap confidence interval (lines 153-156)

`ci(a)` draws `BOOT_ITER` resamples of size `len(a)` with replacement
(`random.choices(a, k=len(a))`), takes `statistics.mean` of each, and
returns `statistics.quantiles(boots, n=20)[1]` and
`statistics.quantiles(boots, n=20)[-2]`.  The random draws are modelled by
an explicit index source `draws : ℕ → ℕ → ℕ` (iteration, slot ↦ index
into `a`). -/

def pyMean (l : List ℚ) : ℚ := l.sum / l.length

def pySorted (l : List ℚ) : List ℚ := l.insertionSort (· ≤ ·)

/-- The loop body of `statistics.quantiles` (exclusive method) on the
sorted data `d`, producing cut point number `idx` (Python's `i = idx + 1`):
`j, delta = divmod(i * m, n)`, clamp `j` to `[1, ld - 1]`, recompute
`delta = i*m - j*n`, and interpolate. -/
def quantileCut (d : List ℚ) (n : ℕ) (idx : ℕ) : ℚ :=
  let i : ℤ := idx + 1
  let m : ℤ := d.length + 1
  let j0 : ℤ := i * m / n
  let j : ℤ :=
    if j0 < 1 then 1
    else if (d.length : ℤ) - 1 < j0 then (d.length : ℤ) - 1 else j0
  let delta : ℤ := i * m - j * n
  (d.getD (j - 1).toNat 0 * ((n : ℚ) - (delta : ℚ)) +
    d.getD j.toNat 0 * (delta : ℚ)) / n

/-- `statistics.quantiles(data, n)` with the default exclusive method.
Raises `StatisticsError` for fewer than two data points, modelled as `[]`
(the script only calls it with `BOOT_ITER = 1000` points). -/
def quantilesEx (data : List ℚ) (n : ℕ) : List ℚ :=
  if (pySorted data).length < 2 then []
  else (List.range (n - 1)).map (quantileCut (pySorted data) n)

/-- The pair of bounds the source returns: elements `[1]` and `[-2]` of the
19 cut points of `quantiles(boots, n=20)` (the source calls `quantiles`
once for each of the two indices). -/
def ci_bounds (boots : List ℚ) : ℚ × ℚ :=
  ((quantilesEx boots 20).getD 1 0,
   (quantilesEx boots 20).getD ((quantilesEx boots 20).length - 2) 0)

/-- The list `boots` of resample means. -/
def bootMeans (a : List ℚ) (draws : ℕ → ℕ → ℕ) : List ℚ :=
  (List.range BOOT_ITER).map (fun it =>
    pyMean ((List.range a.length).map (fun k => a.getD (draws it k) 0)))

/-- The source's `ci(a)`. -/
def ci (a : List ℚ) (draws : ℕ → ℕ → ℕ) : ℚ × ℚ :=
  ci_bounds (bootMeans a draws)

/-- Specification-side percentile at probability `q` of the sorted sample
`d`, exclusive method: position `q * (len + 1)`, linearly interpolated
between the neighbouring order statistics, with the position's integer
part clamped to `[1, len - 1]`. -/
def percentilePoint (d : List ℚ) (q : ℚ) : ℚ :=
  let pos : ℚ := q * ((d.length : ℚ) + 1)
  let j : ℤ :=
    if ⌊pos⌋ < 1 then 1
    else if (d.length : ℤ) - 1 < ⌊pos⌋ then (d.length : ℤ) - 1 else ⌊pos⌋
  let frac : ℚ := pos - (j : ℚ)
  d.getD (j - 1).toNat 0 + frac * (d.getD j.toNat 0 - d.getD (j - 1).toNat 0)

/-- Specification-side percentile of a sample: the interpolated position
`q * (n + 1)` in the sorted data — the convention `statistics.quantiles`
itself uses, stated independently of any cut-point list. -/
def percentileEx (data : List ℚ) (q : ℚ) : ℚ :=
  percentilePoint (pySorted data) q

/-! ### The trial loop (lines 110-131)

One trial per (question, mode) pair, four modes per question, in order.
The generation call `ask_ai` performs `requests.post(..., timeout=600)`
with no surrounding try/except anywhere in the script: a timeout or
network failure raises, which the `Except` monad models — an error
short-circuits everything after it. -/

inductive GenError where
  | timeout
  | network
  deriving Repr, DecidableEq

structure TrialRow where
  question : String
  mode : String
  row : ScoreRow
  latency : ℚ
  deriving Repr, DecidableEq

def modes : List String := ["full", "noGrades", "noPlan", "question"]

/-- The inner `for mode in (...)` loop body for one question: call the
model, extract, score, append a row.  `gen` abstracts
`ask_ai(build_prompt(mode, q))` (prompt construction is external string
formatting). -/
def runModes (gen : String → String → Except GenError (String × ℚ))
    (catalog : List String) (plan taken : Finset String)
    (grades : String → Option String) (q : String) :
    List String → Except GenError (List TrialRow)
  | [] => Except.ok []
  | m :: ms =>
    match gen m q with
    | Except.error e => Except.error e
    | Except.ok (reply, lat) =>
      let recs := extract_courses catalog reply
      let row := scoreRow recs plan taken grades
      match runModes gen catalog plan taken grades q ms with
      | Except.error e => Except.error e
      | Except.ok rest => Except.ok (⟨q, m, row, lat⟩ :: rest)

/-- The outer `for q in questions` loop.  The row list is materialised only
if every generation call returns; an uncaught exception discards the run. -/
def runTrials (gen : String → String → Except GenError (String × ℚ))
    (catalog : List String) (plan taken : Finset String)
    (grades : String → Option String) :
    List String → Except GenError (List TrialRow)
  | [] => Except.ok []
  | q :: qs =>
    match runModes gen catalog plan taken grades q modes with
    | Except.error e => Except.error e
    | Except.ok rows =>
      match runTrials gen catalog plan taken grades qs with
      | Except.error e => Except.error e
      | Except.ok rest => Except.ok (rows ++ rest)

/-! ## Helper lemmas -/

theorem round3_zero : round3 0 = 0 := by
  unfold round3 roundHalfEven
  norm_num

theorem good_plan_subset_good_personal (recs plan taken : Finset String)
    (grades : String → Option String) :
    good_plan recs plan taken ⊆ good_personal recs plan taken grades := by
  intro c hc
  simp only [good_plan, Finset.mem_filter] at hc
  simp only [good_personal, Finset.mem_filter]
  exact ⟨hc.1, hc.2.1, Or.inl hc.2.2⟩

theorem scoreRow_plan_score (recs plan taken : Finset String)
    (grades : String → Option String) :
    (scoreRow recs plan taken grades).plan_score =
      if recs = ∅ then 0
      else round3 (((good_plan recs plan taken).card : ℚ) / recs.card) := rfl

theorem scoreRow_personal_score (recs plan taken : Finset String)
    (grades : String → Option String) :
    (scoreRow recs plan taken grades).personal_score =
      if recs = ∅ then 0
      else round3 (((good_personal recs plan taken grades).card : ℚ) / recs.card) := rfl

theorem scoreRow_lift (recs plan taken : Finset String)
    (grades : String → Option String) :
    (scoreRow recs plan taken grades).lift =
      round3 ((scoreRow recs plan taken grades).personal_score -
        (scoreRow recs plan taken grades).plan_score) := rfl

theorem scoreRow_recall (recs plan taken : Finset String)
    (grades : String → Option String) :
    (scoreRow recs plan taken grades).recall' =
      if plan \ taken = ∅ then 0
      else round3 (((good_plan recs plan taken).card : ℚ) / (plan \ taken).card) := rfl

theorem scoreRow_inv_offplan (recs plan taken : Finset String)
    (grades : String → Option String) :
    (scoreRow recs plan taken grades).inv_offplan =
      (recs.card : ℤ) - (good_plan recs plan taken).card -
        (recs.filter (fun c => c ∈ taken)).card := rfl

theorem plan_score_le_personal_score (recs plan taken : Finset String)
    (grades : String → Option String) :
    (scoreRow recs plan taken grades).plan_score ≤
      (scoreRow recs plan taken grades).personal_score := by
  rw [scoreRow_plan_score, scoreRow_personal_score]
  by_cases h : recs = ∅
  · simp [h]
  · simp only [h, if_false]
    apply round3_mono
    have hcard : (good_plan recs plan taken).card ≤
        (good_personal recs plan taken grades).card :=
      Finset.card_le_card (good_plan_subset_good_personal recs plan taken grades)
    have hpos : (0 : ℚ) < recs.card := by
      have : 0 < recs.card := Finset.card_pos.mpr (Finset.nonempty_of_ne_empty h)
      exact_mod_cast this
    gcongr


/-! ## Claims -/

/-- C3: for every recommendation set, plan, taken set, and grade
assignment, `good_plan` (recommendations in the plan and not taken) is a
subset of `good_personal` (recommendations in the plan and either not
taken or taken with a low grade), and therefore
Lift = PersonalScore − PlanScore is ≥ 0 in every trial result row. -/
theorem c3_subset_invariant_and_lift_nonneg (recs plan taken : Finset String)
    (grades : String → Option String) :
    good_plan recs plan taken ⊆ good_personal recs plan taken grades ∧
    0 ≤ (scoreRow recs plan taken grades).lift := by
  refine ⟨good_plan_subset_good_personal recs plan taken grades, ?_⟩
  rw [scoreRow_lift]
  apply round3_nonneg
  have := plan_score_le_personal_score recs plan taken grades
  linarith

/-- C6: scoring never divides unguarded: an empty recommendation set gives
PlanScore = PersonalScore = Lift = 0.0, and an empty todo = plan − taken
gives Recall = 0.0, whatever the other arguments are. -/
theorem c6_no_unguarded_division (recs plan taken : Finset String)
    (grades : String → Option String) :
    (recs = ∅ →
      (scoreRow recs plan taken grades).plan_score = 0 ∧
      (scoreRow recs plan taken grades).personal_score = 0 ∧
      (scoreRow recs plan taken grades).lift = 0) ∧
    (plan \ taken = ∅ → (scoreRow recs plan taken grades).recall' = 0) := by
  constructor
  · intro h
    have hp : (scoreRow recs plan taken grades).plan_score = 0 := by
      rw [scoreRow_plan_score, if_pos h]
    have hs : (scoreRow recs plan taken grades).personal_score = 0 := by
      rw [scoreRow_personal_score, if_pos h]
    refine ⟨hp, hs, ?_⟩
    rw [scoreRow_lift, hp, hs]
    simpa using round3_zero
  · intro h
    rw [scoreRow_recall, if_pos h]

theorem c6_witness :
    (({} : Finset String) = ∅ ∧
      (scoreRow {} {"CPS 2232: Data Structure"} {"CPS 2232: Data Structure"}
        (fun _ => none)).plan_score = 0 ∧
      (scoreRow {} {"CPS 2232: Data Structure"} {"CPS 2232: Data Structure"}
        (fun _ => none)).personal_score = 0 ∧
      (scoreRow {} {"CPS 2232: Data Structure"} {"CPS 2232: Data Structure"}
        (fun _ => none)).lift = 0) ∧
    (({"CPS 2232: Data Structure"} : Finset String) \ {"CPS 2232: Data Structure"} = ∅ ∧
      (scoreRow {} {"CPS 2232: Data Structure"} {"CPS 2232: Data Structure"}
        (fun _ => none)).recall' = 0) := by
  have h := c6_no_unguarded_division {} {"CPS 2232: Data Structure"}
    {"CPS 2232: Data Structure"} (fun _ => none)
  exact ⟨⟨by decide, h.1 (by decide)⟩, ⟨by decide, h.2 (by decide)⟩⟩

/-- C9: invalid_off_plan = |recommendations| − |good_plan| − invalid_taken
is non-negative for every recommendation set, plan, and taken set. -/
theorem c9_inv_offplan_nonneg (recs plan taken : Finset String)
    (grades : String → Option String) :
    0 ≤ (scoreRow recs plan taken grades).inv_offplan := by
  rw [scoreRow_inv_offplan]
  have hdisj : Disjoint (good_plan recs plan taken)
      (recs.filter (fun c => c ∈ taken)) := by
    rw [Finset.disjoint_left]
    intro c hc hc2
    simp only [good_plan, Finset.mem_filter] at hc
    simp only [Finset.mem_filter] at hc2
    exact hc.2.2 hc2.2
  have hsub : good_plan recs plan taken ∪ recs.filter (fun c => c ∈ taken) ⊆ recs := by
    apply Finset.union_subset
    · exact Finset.filter_subset _ _
    · exact Finset.filter_subset _ _
  have hcard := Finset.card_le_card hsub
  rw [Finset.card_union_of_disjoint hdisj] at hcard
  omega

/-- C7 counterexample: with three recommendations of which one is a good
plan course, the reported PlanScore is `round(1/3, 3) = 0.333`, not the
exact rational `1/3`. -/
theorem c7_counterexample :
    (scoreRow {"a", "b", "c"} {"a"} {} (fun _ => none)).plan_score ≠
      ((good_plan {"a", "b", "c"} {"a"} {}).card : ℚ) /
        (({"a", "b", "c"} : Finset String).card : ℚ) := by
  with_unfolding_all decide

/-- C7 (amended): for every non-empty recommendation set, the reported
PlanScore (resp. PersonalScore) is |good_plan| / |recommendations|
(resp. |good_personal| / |recommendations|) rounded to three decimal
places, half to even; in particular it differs from the exact ratio by at
most 1/2000. -/
theorem c7_scores_are_rounded_ratios (recs plan taken : Finset String)
    (grades : String → Option String) (h : recs ≠ ∅) :
    (scoreRow recs plan taken grades).plan_score =
      round3 (((good_plan recs plan taken).card : ℚ) / recs.card) ∧
    (scoreRow recs plan taken grades).personal_score =
      round3 (((good_personal recs plan taken grades).card : ℚ) / recs.card) ∧
    |(scoreRow recs plan taken grades).plan_score -
      ((good_plan recs plan taken).card : ℚ) / recs.card| ≤ 1 / 2000 ∧
    |(scoreRow recs plan taken grades).personal_score -
      ((good_personal recs plan taken grades).card : ℚ) / recs.card| ≤ 1 / 2000 := by
  rw [scoreRow_plan_score, scoreRow_personal_score, if_neg h, if_neg h]
  exact ⟨rfl, rfl, round3_abs_sub_le _, round3_abs_sub_le _⟩

theorem c7_witness :
    (({"a", "b", "c"} : Finset String) ≠ ∅) ∧
    ((scoreRow {"a", "b", "c"} {"a"} {} (fun _ => none)).plan_score =
      round3 (((good_plan {"a", "b", "c"} {"a"} {}).card : ℚ) /
        (({"a", "b", "c"} : Finset String).card : ℚ)) ∧
     (scoreRow {"a", "b", "c"} {"a"} {} (fun _ => none)).personal_score =
      round3 (((good_personal {"a", "b", "c"} {"a"} {} (fun _ => none)).card : ℚ) /
        (({"a", "b", "c"} : Finset String).card : ℚ)) ∧
     |(scoreRow {"a", "b", "c"} {"a"} {} (fun _ => none)).plan_score -
      ((good_plan {"a", "b", "c"} {"a"} {}).card : ℚ) /
        (({"a", "b", "c"} : Finset String).card : ℚ)| ≤ 1 / 2000 ∧
     |(scoreRow {"a", "b", "c"} {"a"} {} (fun _ => none)).personal_score -
      ((good_personal {"a", "b", "c"} {"a"} {} (fun _ => none)).card : ℚ) /
        (({"a", "b", "c"} : Finset String).card : ℚ)| ≤ 1 / 2000) :=
  ⟨by decide, c7_scores_are_rounded_ratios {"a", "b", "c"} {"a"} {}
    (fun _ => none) (by decide)⟩

theorem gradeRank_isSome_of_mem {g : String} (hg : g ∈ gradeScale) :
    (gradeRank g).isSome = true := by
  simp only [gradeScale, List.mem_cons, List.not_mem_nil, or_false] at hg
  rcases hg with rfl | rfl | rfl | rfl | rfl | rfl | rfl | rfl | rfl <;> decide

/-- C8: `grade_low` is true iff the student has a recorded grade for the
course and that grade's rank on the ordered scale A..F is at or worse than
the threshold's rank (worse grades have larger ranks); a course with no
recorded grade is never low.  The hypothesis restricts recorded grades to
the ordered scale, as the data model specifies. -/
theorem c8_grade_low_iff (grades : String → Option String) (c : String)
    (hscale : ∀ g, grades c = some g → g ∈ gradeScale) :
    (grade_low grades c = true ↔
      ∃ g r tr, grades c = some g ∧ gradeRank g = some r ∧
        gradeRank LOW_GRADE_THRESHOLD = some tr ∧ tr ≤ r) ∧
    (grades c = none → grade_low grades c = false) := by
  have h4 : gradeRank LOW_GRADE_THRESHOLD = some 4 := by decide
  constructor
  · constructor
    · intro h
      unfold grade_low at h
      cases hg : grades c with
      | none => rw [hg] at h; simp at h
      | some g =>
        rw [hg] at h
        simp only [decide_eq_true_eq] at h
        have hmem := hscale g hg
        obtain ⟨r, hr⟩ := Option.isSome_iff_exists.mp (gradeRank_isSome_of_mem hmem)
        refine ⟨g, r, 4, rfl, hr, h4, ?_⟩
        rw [hr, h4] at h
        simpa using h
    · rintro ⟨g, r, tr, hg, hr, htr, hle⟩
      unfold grade_low
      rw [hg]
      simp only [decide_eq_true_eq]
      rw [hr, h4]
      rw [htr] at h4
      simp only [Option.some_inj] at h4
      simp only [Option.getD_some, ge_iff_le]
      omega
  · intro h
    unfold grade_low
    rw [h]

theorem c8_witness :
    ((grade_low (fun c => if c = "CPS 1" then some "C" else none) "CPS 1" = true ↔
      ∃ g r tr, (fun c => if c = "CPS 1" then some "C" else none) "CPS 1" = some g ∧
        gradeRank g = some r ∧
        gradeRank LOW_GRADE_THRESHOLD = some tr ∧ tr ≤ r) ∧
     ((fun c => if c = "CPS 1" then some "C" else none) "CPS 1" = none →
      grade_low (fun c => if c = "CPS 1" then some "C" else none) "CPS 1" = false)) :=
  c8_grade_low_iff (fun c => if c = "CPS 1" then some "C" else none) "CPS 1"
    (by
      intro g h
      have h' : some "C" = some g := h
      injection h' with h2
      subst h2
      decide)

def c10Catalog : List String :=
  ["CPS 2232: Data Structure", "MATH 2110: Discrete Structure"]

/-- C10: the end-to-end scenario: catalog of two courses, plan containing
the CPS course, nothing taken, response "I recommend CPS 2232 and nothing
else."  Extraction returns exactly the CPS catalog line and scoring gives
PlanScore = 1.0, PersonalScore = 1.0, Lift = 0.0, Recall = 1.0,
invalid_taken = 0, invalid_off_plan = 0. -/
theorem c10_end_to_end_scenario :
    extract_courses c10Catalog "I recommend CPS 2232 and nothing else." =
      {"CPS 2232: Data Structure"} ∧
    scoreRow (extract_courses c10Catalog "I recommend CPS 2232 and nothing else.")
      {"CPS 2232: Data Structure"} {} (fun _ => none) =
      ⟨1, 1, 1, 0, 1, 0, 0⟩ := by
  with_unfolding_all decide

/-- C4: the fuzzy pass runs only when the exact pass yields nothing: a
non-empty exact pass is returned unchanged (no fuzzy match added), and an
empty exact pass makes the extraction exactly the set of catalog courses
whose sequence-matching ratio against the whole lowercased text exceeds
0.8. -/
theorem c4_fuzzy_fallback_activation (catalog : List String) (text : String) :
    (exactPass catalog text ≠ ∅ →
      extract_courses catalog text = exactPass catalog text) ∧
    (exactPass catalog text = ∅ →
      ∀ full, full ∈ extract_courses catalog text ↔
        full ∈ catalog ∧
        (4 : ℚ) / 5 < ratio (lowerChars text.toList) (lowerChars full.toList)) := by
  have hdef : extract_courses catalog text =
      if exactPass catalog text = ∅ then fuzzyPass catalog text
      else exactPass catalog text := rfl
  constructor
  · intro h
    rw [hdef, if_neg h]
  · intro h full
    rw [hdef, if_pos h]
    unfold fuzzyPass
    rw [List.mem_toFinset, List.mem_filter]
    simp only [decide_eq_true_eq]

theorem c4_witness :
    (exactPass ["CPS 2232: Data Structure"] "Take CPS 2232 now" ≠ ∅ ∧
      extract_courses ["CPS 2232: Data Structure"] "Take CPS 2232 now" =
        exactPass ["CPS 2232: Data Structure"] "Take CPS 2232 now") ∧
    (exactPass ["CPS 2232: Data Structure"] "cps_2232: data structure" = ∅ ∧
      ("CPS 2232: Data Structure" ∈
          extract_courses ["CPS 2232: Data Structure"] "cps_2232: data structure" ↔
        "CPS 2232: Data Structure" ∈ ["CPS 2232: Data Structure"] ∧
        (4 : ℚ) / 5 < ratio (lowerChars "cps_2232: data structure".toList)
          (lowerChars "CPS 2232: Data Structure".toList))) :=
  ⟨⟨by with_unfolding_all decide,
    (c4_fuzzy_fallback_activation ["CPS 2232: Data Structure"]
      "Take CPS 2232 now").1 (by with_unfolding_all decide)⟩,
   ⟨by with_unfolding_all decide,
    ((c4_fuzzy_fallback_activation ["CPS 2232: Data Structure"]
      "cps_2232: data structure").2 (by with_unfolding_all decide))
      "CPS 2232: Data Structure"⟩⟩

theorem codeMatches_iff_occursWholeWord (code text : String) :
    codeMatches code text = true ↔ occursWholeWord code text := by
  unfold codeMatches occursWholeWord
  rw [List.any_eq_true]
  constructor
  · rintro ⟨p, hp, hb⟩
    simp only [Bool.and_eq_true, decide_eq_true_eq] at hb
    exact ⟨p, hb.1.1.1, hb.1.1.2, hb.1.2, hb.2⟩
  · rintro ⟨p, h1, h2, h3, h4⟩
    refine ⟨p, List.mem_range.mpr (by omega), ?_⟩
    simp only [Bool.and_eq_true, decide_eq_true_eq]
    exact ⟨⟨⟨h1, h2⟩, h3⟩, h4⟩

theorem dictInsert_mem {d : List (String × String)} {k v : String}
    {p : String × String} (hp : p ∈ dictInsert d k v) :
    p ∈ d ∨ p = (k, v) := by
  unfold dictInsert at hp
  split at hp
  · obtain ⟨q, hq, hqe⟩ := List.mem_map.mp hp
    by_cases h : q.1 = k
    · right
      rw [if_pos h] at hqe
      exact hqe.symm
    · left
      rw [if_neg h] at hqe
      rwa [← hqe]
  · rcases List.mem_append.mp hp with h | h
    · left; exact h
    · right; simpa using h

theorem allCodes_mem (catalog : List String) :
    ∀ p ∈ allCodes catalog, p.1 = codeOf p.2 ∧ p.2 ∈ catalog := by
  unfold allCodes
  suffices h : ∀ (l : List String) (d : List (String × String)),
      (∀ p ∈ d, p.1 = codeOf p.2 ∧ p.2 ∈ catalog) →
      (∀ c ∈ l, c ∈ catalog) →
      ∀ p ∈ l.foldl (fun d c => dictInsert d (codeOf c) c) d,
        p.1 = codeOf p.2 ∧ p.2 ∈ catalog by
    intro p hp
    exact h catalog [] (by simp) (fun c hc => hc) p hp
  intro l
  induction l with
  | nil =>
    intro d hd _ p hp
    exact hd p hp
  | cons c cs ih =>
    intro d hd hl p hp
    rw [List.foldl_cons] at hp
    refine ih (dictInsert d (codeOf c) c) ?_
      (fun x hx => hl x (List.mem_cons_of_mem _ hx)) p hp
    intro q hq
    rcases dictInsert_mem hq with h | h
    · exact hd q h
    · rw [h]
      exact ⟨rfl, hl c (List.mem_cons_self _ _)⟩

/-- C5: the exact pass matches a catalog code only as a whole-word,
case-insensitive occurrence in the text; in particular the code "CPS 220"
does not match inside the longer token "CPS 2201". -/
theorem c5_exact_pass_whole_word :
    (∀ catalog text full, full ∈ exactPass catalog text →
      full ∈ catalog ∧ occursWholeWord (codeOf full) text) ∧
    codeMatches "CPS 220" "Course CPS 2201 is hard" = false := by
  constructor
  · intro catalog text full hf
    simp only [exactPass, List.mem_toFinset, List.mem_filterMap] at hf
    obtain ⟨p, hp, hcm⟩ := hf
    have hent := allCodes_mem catalog p hp
    by_cases h : codeMatches p.1 text = true
    · rw [if_pos h] at hcm
      injection hcm with hv
      subst hv
      refine ⟨hent.2, ?_⟩
      rw [← hent.1]
      exact (codeMatches_iff_occursWholeWord _ _).mp h
    · rw [if_neg h] at hcm
      cases hcm
  · decide

theorem c5_witness :
    ("CPS 2232: Data Structure" ∈
        exactPass ["CPS 2232: Data Structure"] "Take CPS 2232 today") ∧
    ("CPS 2232: Data Structure" ∈ ["CPS 2232: Data Structure"] ∧
      occursWholeWord (codeOf "CPS 2232: Data Structure") "Take CPS 2232 today") :=
  ⟨by with_unfolding_all decide,
   c5_exact_pass_whole_word.1 ["CPS 2232: Data Structure"] "Take CPS 2232 today"
     "CPS 2232: Data Structure" (by with_unfolding_all decide)⟩

theorem runModes_isError (gen : String → String → Except GenError (String × ℚ))
    (catalog : List String) (plan taken : Finset String)
    (grades : String → Option String) (q : String) :
    ∀ ms : List String, (∃ m ∈ ms, ∃ e, gen m q = Except.error e) →
      ∃ e, runModes gen catalog plan taken grades q ms = Except.error e := by
  intro ms
  induction ms with
  | nil =>
    rintro ⟨m, hm, _⟩
    cases hm
  | cons m ms ih =>
    rintro ⟨m', hm', e, he⟩
    cases hgen : gen m q with
    | error e2 =>
      exact ⟨e2, by rw [runModes, hgen]⟩
    | ok v =>
      obtain ⟨reply, lat⟩ := v
      have hm's : m' ∈ ms := by
        rcases List.mem_cons.mp hm' with h | h
        · subst h
          rw [he] at hgen
          cases hgen
        · exact h
      obtain ⟨e3, he3⟩ := ih ⟨m', hm's, e, he⟩
      exact ⟨e3, by rw [runModes, hgen, he3]⟩

/-- C2 (amended): a generation-call failure (timeout or network error) in
any single (question, mode) trial is not caught anywhere: the exception
propagates and the whole evaluation run aborts with that error, producing
no result rows at all — the failed trial is not recorded as a
zero-recommendation success, but the remaining trials are not executed
either. -/
theorem c2_generation_failure_aborts_run
    (gen : String → String → Except GenError (String × ℚ))
    (catalog : List String) (plan taken : Finset String)
    (grades : String → Option String) (questions : List String)
    (h : ∃ q ∈ questions, ∃ m ∈ modes, ∃ e, gen m q = Except.error e) :
    ∃ e, runTrials gen catalog plan taken grades questions =
      Except.error e := by
  induction questions with
  | nil =>
    obtain ⟨q, hq, _⟩ := h
    cases hq
  | cons q qs ih =>
    obtain ⟨q', hq', hfail⟩ := h
    cases hrm : runModes gen catalog plan taken grades q modes with
    | error e2 =>
      exact ⟨e2, by rw [runTrials, hrm]⟩
    | ok rows =>
      have hq's : q' ∈ qs := by
        rcases List.mem_cons.mp hq' with h1 | h1
        · subst h1
          obtain ⟨e4, he4⟩ :=
            runModes_isError gen catalog plan taken grades q' modes hfail
          rw [he4] at hrm
          cases hrm
        · exact h1
      obtain ⟨e3, he3⟩ := ih ⟨q', hq's, hfail⟩
      exact ⟨e3, by rw [runTrials, hrm, he3]⟩

/-- One concrete generation function: the call for mode "noGrades" times
out, every other call succeeds. -/
def cexGen : String → String → Except GenError (String × ℚ) := fun m _q =>
  if m = "noGrades" then Except.error GenError.timeout
  else Except.ok ("I cannot help with that", 1)

/-- C2 counterexample: the first trial of "q1" (mode "full") succeeds and
the second (mode "noGrades") times out; the claim says the run continues
with the remaining trials and records the failure, but the run evaluates
to the bare error — no row for any trial, prior, failed or remaining, is
produced. -/
theorem c2_counterexample :
    (∃ e, cexGen "noGrades" "q1" = Except.error e) ∧
    cexGen "noPlan" "q1" = Except.ok ("I cannot help with that", 1) ∧
    runTrials cexGen [] {} {} (fun _ => none) ["q1"] =
      Except.error GenError.timeout :=
  ⟨⟨GenError.timeout, rfl⟩, rfl, by with_unfolding_all rfl⟩

theorem c2_witness :
    (∃ q ∈ ["q1"], ∃ m ∈ modes, ∃ e, cexGen m q = Except.error e) ∧
    (∃ e, runTrials cexGen [] {} {} (fun _ => none) ["q1"] =
      Except.error e) :=
  ⟨⟨"q1", by decide, "noGrades", by decide, GenError.timeout, rfl⟩,
   c2_generation_failure_aborts_run cexGen [] {} {} (fun _ => none) ["q1"]
     ⟨"q1", by decide, "noGrades", by decide, GenError.timeout, rfl⟩⟩

theorem pySorted_length (l : List ℚ) : (pySorted l).length = l.length := by
  simp [pySorted, List.length_insertionSort]

theorem quantileCut_eq_percentilePoint (d : List ℚ) (idx : ℕ) :
    quantileCut d 20 idx = percentilePoint d ((idx + 1 : ℚ) / 20) := by
  unfold quantileCut percentilePoint
  simp only []
  have hpos : ((idx + 1 : ℚ) / 20) * ((d.length : ℚ) + 1)
      = ((((idx : ℤ) + 1) * ((d.length : ℤ) + 1) : ℤ) : ℚ) / ((20 : ℕ) : ℚ) := by
    push_cast
    ring
  rw [hpos, Rat.floor_intCast_div_natCast]
  set j : ℤ :=
    if ((idx : ℤ) + 1) * ((d.length : ℤ) + 1) / ((20 : ℕ) : ℤ) < 1 then 1
    else if (d.length : ℤ) - 1 <
        ((idx : ℤ) + 1) * ((d.length : ℤ) + 1) / ((20 : ℕ) : ℤ) then
      (d.length : ℤ) - 1
    else ((idx : ℤ) + 1) * ((d.length : ℤ) + 1) / ((20 : ℕ) : ℤ) with hj
  set a : ℚ := d.getD (j - 1).toNat 0 with ha
  set b : ℚ := d.getD j.toNat 0 with hb
  push_cast
  ring

theorem getD_map_range (n : ℕ) (f : ℕ → ℚ) (i : ℕ) (h : i < n) :
    ((List.range n).map f).getD i 0 = f i := by
  rw [List.getD_eq_getElem?_getD, List.getElem?_map, List.getElem?_range h]
  rfl

theorem ci_bounds_eq_percentiles (boots : List ℚ) (h2 : 2 ≤ boots.length) :
    ci_bounds boots =
      (percentileEx boots (1 / 10), percentileEx boots (9 / 10)) := by
  have hlen := pySorted_length boots
  have hnot : ¬ ((pySorted boots).length < 2) := by omega
  have hq : quantilesEx boots 20 =
      (List.range 19).map (quantileCut (pySorted boots) 20) := by
    unfold quantilesEx
    rw [if_neg hnot]
  have hql : (quantilesEx boots 20).length = 19 := by
    rw [hq]
    simp
  unfold ci_bounds percentileEx
  rw [hq, List.length_map, List.length_range, show (19 : ℕ) - 2 = 17 from rfl,
    getD_map_range 19 _ 1 (by norm_num), getD_map_range 19 _ 17 (by norm_num),
    quantileCut_eq_percentilePoint, quantileCut_eq_percentilePoint]
  norm_num

/-- C1 (amended): `ci` draws `BOOT_ITER` (default 1000) resamples of size
N with replacement, takes the mean of each, and returns the 10th
percentile of those resample means as the lower bound and the 90th
percentile as the upper bound (the source indexes the 20-quantile cut
list at `[1]` and `[-2]`, not at `[0]` and `[-1]`). -/
theorem c1_bootstrap_ci_percentile_indices (a : List ℚ) (draws : ℕ → ℕ → ℕ) :
    (bootMeans a draws).length = BOOT_ITER ∧
    ci a draws =
      (percentileEx (bootMeans a draws) (1 / 10),
       percentileEx (bootMeans a draws) (9 / 10)) := by
  have hlen : (bootMeans a draws).length = BOOT_ITER := by
    simp [bootMeans]
  refine ⟨hlen, ?_⟩
  unfold ci
  exact ci_bounds_eq_percentiles _ (by rw [hlen]; norm_num [BOOT_ITER])

def cexObs : List ℚ := [0, 1]

/-- An explicit random source for the counterexample: iterations below 75
draw the first observation twice, iterations from 925 on draw the second
twice, and the others draw each once. -/
def cexDraws : ℕ → ℕ → ℕ := fun it k =>
  if it < 75 then 0 else if it < 925 then k else 1

set_option maxRecDepth 40000 in
/-- C1 counterexample: on the observations [0, 1] with the explicit random
source above, the resample means are 75 zeros, 850 halves and 75 ones, so
`ci` returns (1/2, 1/2) while the 5th and 95th percentiles of the resample
means are 0 and 1: the interval the code computes is not the
(5th percentile, 95th percentile) pair the claim describes. -/
theorem c1_counterexample :
    ci cexObs cexDraws ≠
      (percentileEx (bootMeans cexObs cexDraws) (1 / 20),
       percentileEx (bootMeans cexObs cexDraws) (19 / 20)) := by
  with_unfolding_all decide

end EvalRelevance
